import Mathlib

/-!
# ssm-reflection: populating a struct from SSM parameters by reflection

A shallow embedding of `src/main.go`.

* `reflect` values are modelled by `Record` (a struct value: its fields in
  declaration order) and `Scalar` (the contents of a non-struct field).
  Every field is taken to be exported and addressable, as are all fields of
  the struct types declared in the source, so the `Set*` calls do not panic.
* The SSM client is the function `Env.GetParameter` of the name and the
  decryption flag; every call made to it is appended to a trace, so that
  the calls a run makes can be stated.
* Go strings are byte strings; here they are `String`, and a loop over the
  bytes of a string is a loop over its characters.  For `strconv` no byte
  above 127 is a digit, a sign, a base letter or an underscore, and for the
  models no character above 127 is one.
* `strconv.ParseInt` and `strconv.ParseBool` are transcribed from the Go
  standard library.  `strconv.ParseFloat` is a field of `Env`.
* `int` is 64 bits wide (`strconv.IntSize = 64`).
-/

deriving instance DecidableEq for Except

namespace SSMReflection

/-! ## strconv -/

/-- The sentinel errors a `*strconv.NumError` wraps: `ErrSyntax`, `ErrRange`,
and the two `errors.New` values of `baseError` and `bitSizeError`. -/
inductive ErrKind where
  | ErrSyntax
  | ErrRange
  | invalidBase (base : Nat)
  | invalidBitSize (bitSize : Nat)
deriving DecidableEq, Repr

/-- The type `strconv.NumError`. -/
structure NumError where
  Func : String
  Num : String
  Err : ErrKind
deriving DecidableEq, Repr

/-- The constant `strconv.IntSize` on a 64-bit target. -/
def IntSize : Nat := 64

/-- The constant `maxUint64`. -/
def maxUint64 : Nat := 2 ^ 64 - 1

/-- The helper `lower(c byte) byte`, which is `c | ('x' - 'X')`. -/
def lower (c : Nat) : Nat := c ||| 0x20

/-- One iteration of the digit loop of `strconv.ParseUint`. -/
inductive Step where
  | skip
  | digit (d : Nat)
  | bad
deriving DecidableEq, Repr

/-- The `switch` that classifies one byte `c` in the loop of `ParseUint`. -/
def classify (base0 : Bool) (c : Nat) : Step :=
  if c = 95 ∧ base0 = true then Step.skip
  else if 48 ≤ c ∧ c ≤ 57 then Step.digit (c - 48)
  else if 97 ≤ lower c ∧ lower c ≤ 122 then Step.digit (lower c - 97 + 10)
  else Step.bad

/-- The loop `for _, c := range []byte(s)` of `strconv.ParseUint`, with the
accumulator `n` and the flag `underscores`.  The result is the pair
`(n, underscores)` when the loop runs to its end, and otherwise the sentinel
of the error the loop returns with. -/
def digitLoop (base : Nat) (base0 : Bool) (cutoff maxVal : Nat) :
    List Char → Nat → Bool → Except ErrKind (Nat × Bool)
  | [], n, underscores => .ok (n, underscores)
  | c :: cs, n, underscores =>
    match classify base0 c.toNat with
    | Step.skip => digitLoop base base0 cutoff maxVal cs n true
    | Step.bad => .error ErrKind.ErrSyntax
    | Step.digit d =>
      if d ≥ base then .error ErrKind.ErrSyntax
      else if n ≥ cutoff then .error ErrKind.ErrRange
      else
        let n' := (n * base) % 2 ^ 64
        let n1 := (n' + d) % 2 ^ 64
        if n1 < n' ∨ n1 > maxVal then .error ErrKind.ErrRange
        else digitLoop base base0 cutoff maxVal cs n1 underscores

/-- The state `saw` of `strconv.underscoreOK`. -/
inductive Saw where
  | start
  | digit
  | underscore
  | other
deriving DecidableEq, Repr

/-- The loop "number proper" of `strconv.underscoreOK`. -/
def underscoreLoop (hex : Bool) : List Char → Saw → Bool
  | [], saw => decide (saw ≠ Saw.underscore)
  | c :: cs, saw =>
    let b := c.toNat
    if (48 ≤ b ∧ b ≤ 57) ∨ (hex = true ∧ 97 ≤ lower b ∧ lower b ≤ 102) then
      underscoreLoop hex cs Saw.digit
    else if b = 95 then
      if saw ≠ Saw.digit then false else underscoreLoop hex cs Saw.underscore
    else if saw = Saw.underscore then false
    else underscoreLoop hex cs Saw.other

/-- The function `strconv.underscoreOK`. -/
def underscoreOK (s : List Char) : Bool :=
  let s := match s with
    | c :: cs => if c = '-' ∨ c = '+' then cs else s
    | [] => s
  match s with
  | c0 :: c1 :: rest =>
    if c0 = '0' ∧ (lower c1.toNat = 98 ∨ lower c1.toNat = 111 ∨ lower c1.toNat = 120) then
      underscoreLoop (decide (lower c1.toNat = 120)) rest Saw.digit
    else underscoreLoop false s Saw.start
  | _ => underscoreLoop false s Saw.start

/-- The base detection of `strconv.ParseUint` for `base == 0`: the base and
the digits that remain after the prefix. -/
def detectBase (s : List Char) : Nat × List Char :=
  match s with
  | c0 :: rest =>
    if c0 = '0' then
      match rest with
      | c1 :: rest' =>
        if s.length ≥ 3 ∧ lower c1.toNat = 98 then (2, rest')
        else if s.length ≥ 3 ∧ lower c1.toNat = 111 then (8, rest')
        else if s.length ≥ 3 ∧ lower c1.toNat = 120 then (16, rest')
        else (8, rest)
      | [] => (8, rest)
    else (10, s)
  | [] => (10, s)

/-- The function `strconv.ParseUint(s, base, bitSize)`: the returned `uint64`
and the returned error (`none` is `nil`). -/
def ParseUint (s : String) (base bitSize : Nat) : Nat × Option NumError :=
  let fnParseUint := "ParseUint"
  if s = "" then (0, some ⟨fnParseUint, s, ErrKind.ErrSyntax⟩)
  else
    let base0 := decide (base = 0)
    if ¬ (base = 0 ∨ (2 ≤ base ∧ base ≤ 36)) then
      (0, some ⟨fnParseUint, s, ErrKind.invalidBase base⟩)
    else
      let bd := if base = 0 then detectBase s.data else (base, s.data)
      let bitSize' := if bitSize = 0 then IntSize else bitSize
      if bitSize' > 64 then (0, some ⟨fnParseUint, s, ErrKind.invalidBitSize bitSize⟩)
      else
        let cutoff := maxUint64 / bd.1 + 1
        let maxVal := 2 ^ bitSize' - 1
        match digitLoop bd.1 base0 cutoff maxVal bd.2 0 false with
        | .error ErrKind.ErrRange => (maxVal, some ⟨fnParseUint, s, ErrKind.ErrRange⟩)
        | .error e => (0, some ⟨fnParseUint, s, e⟩)
        | .ok (n, underscores) =>
          if underscores = true ∧ underscoreOK s.data = false then
            (0, some ⟨fnParseUint, s, ErrKind.ErrSyntax⟩)
          else (n, none)

/-- The conversion `int64(x)` of an integer `x`: reduction to the
two's-complement range of `bits` bits. -/
def wrapSigned (bits : Nat) (x : Int) : Int :=
  (x + 2 ^ (bits - 1)) % 2 ^ bits - 2 ^ (bits - 1)

/-- The function `strconv.ParseInt(s, base, bitSize)`.  The source reads the
returned integer only when the returned error is `nil`, so the integer that
accompanies an error is not kept. -/
def ParseInt (s : String) (base bitSize : Nat) : Except NumError Int :=
  let fnParseInt := "ParseInt"
  if s = "" then .error ⟨fnParseInt, s, ErrKind.ErrSyntax⟩
  else
    let s0 := s
    let neg := decide (s.data.head? = some '-')
    let body : String :=
      if s.data.head? = some '+' ∨ s.data.head? = some '-' then ⟨s.data.tail⟩ else s
    match ParseUint body base bitSize with
    | (un, err) =>
      match (match err with
             | some e => if e.Err ≠ ErrKind.ErrRange then some e else none
             | none => none) with
      | some e => .error ⟨fnParseInt, s0, e.Err⟩
      | none =>
        let bitSize' := if bitSize = 0 then IntSize else bitSize
        let cutoff := 2 ^ (bitSize' - 1)
        if neg = false ∧ un ≥ cutoff then .error ⟨fnParseInt, s0, ErrKind.ErrRange⟩
        else if neg = true ∧ un > cutoff then .error ⟨fnParseInt, s0, ErrKind.ErrRange⟩
        else
          let n := wrapSigned 64 un
          .ok (if neg = true then wrapSigned 64 (-n) else n)

/-- The function `strconv.ParseBool`. -/
def ParseBool (str : String) : Except NumError Bool :=
  if str = "1" ∨ str = "t" ∨ str = "T" ∨ str = "true" ∨ str = "TRUE" ∨ str = "True" then
    .ok true
  else if str = "0" ∨ str = "f" ∨ str = "F" ∨ str = "false" ∨ str = "FALSE"
      ∨ str = "False" then
    .ok false
  else .error ⟨"ParseBool", str, ErrKind.ErrSyntax⟩

/-! ## reflect -/

/-- The values of `reflect.Kind` other than `Struct`.  A field of kind
`Struct` is the constructor `Record.nested`. -/
inductive Kind where
  | Invalid | Bool
  | Int | Int8 | Int16 | Int32 | Int64
  | Uint | Uint8 | Uint16 | Uint32 | Uint64 | Uintptr
  | Float32 | Float64 | Complex64 | Complex128
  | Array | Chan | Func | Interface | Map | Pointer | Slice | String
  | UnsafePointer
deriving DecidableEq, Repr

/-- The contents of a non-struct field.  A floating-point number is kept as
its IEEE-754 binary64 bit pattern; `other` stands for the contents of a
field of a kind that `handleSSMUpdate` never writes. -/
inductive Scalar where
  | str (s : String)
  | int (i : Int)
  | float (bits : Nat)
  | bool (b : Bool)
  | other (n : Nat)
deriving DecidableEq, Repr

/-- A struct value, as `reflect` walks it: its fields in declaration order.
`scalar name tag kind value rest` is a field of a non-struct kind followed
by the fields `rest`; `nested name tag inner rest` is a field of kind
`Struct` with the fields `inner`, followed by the fields `rest`.  `tag` is
the result of `fieldType.Tag.Lookup("ssm")` (`none` when `ok` is false). -/
inductive Record where
  | nil
  | scalar (name : String) (tag : Option String) (kind : Kind) (value : Scalar)
      (rest : Record)
  | nested (name : String) (tag : Option String) (inner : Record) (rest : Record)
deriving DecidableEq, Repr

/-- The width in bits of a signed-integer kind (`0` for the other kinds). -/
def Kind.bits : Kind → Nat
  | Kind.Int => IntSize
  | Kind.Int8 => 8
  | Kind.Int16 => 16
  | Kind.Int32 => 32
  | Kind.Int64 => 64
  | _ => 0

/-! ## The program -/

/-- What the program is run against: the SSM client, and the part of the Go
library that works on floating-point numbers.  `GetParameter name
withDecryption` is `client.GetParameter` followed by `value.Parameter.Value`;
`ParseFloat s` is `strconv.ParseFloat(s, 64)` as a binary64 bit pattern;
`toFloat32 x` is `float64(float32(x))`. -/
structure Env where
  GetParameter : String → Bool → Except String String
  ParseFloat : String → Except NumError Nat
  toFloat32 : Nat → Nat

/-- A Go `error` value of the program: the error of the SSM client, a
`*strconv.NumError`, or the result of `fmt.Errorf`. -/
inductive Error where
  | client (cause : String)
  | num (e : NumError)
  | errorf (message : String)
deriving DecidableEq, Repr

/-- One call of `client.GetParameter`: the `Name` and the `WithDecryption`
of its input. -/
abbrev Call := String × Bool

/-- The function `getSSMParameter`: the call is recorded in the trace. -/
def getSSMParameter (env : Env) (name : String) (trace : List Call) :
    Except Error String × List Call :=
  let withDecryption := true
  let trace' := trace ++ [(name, withDecryption)]
  match env.GetParameter name withDecryption with
  | .error err => (.error (Error.client err), trace')
  | .ok value => (.ok value, trace')

/-- The method `reflect.Value.SetInt` on a field of kind `kind`. -/
def SetInt (kind : Kind) (x : Int) : Scalar :=
  Scalar.int (wrapSigned kind.bits x)

/-- The method `reflect.Value.SetFloat` on a field of kind `kind`. -/
def SetFloat (env : Env) (kind : Kind) (x : Nat) : Scalar :=
  if kind = Kind.Float32 then Scalar.float (env.toFloat32 x) else Scalar.float x

/-- The result of `handleSSMUpdate`: the contents of the field afterwards,
the trace of client calls, and the returned error (`none` is `nil`). -/
structure Outcome where
  value : Scalar
  trace : List Call
  err : Option Error
deriving DecidableEq, Repr

/-- The function `handleSSMUpdate` on a field of kind `kind` that holds
`field`, whose `fieldType.Name` is `fieldName`. -/
def handleSSMUpdate (env : Env) (kind : Kind) (field : Scalar) (fieldName : String)
    (ssmPath ssm : String) (trace : List Call) : Outcome :=
  let parameterPath := ssmPath ++ ssm
  match kind with
  | Kind.String =>
    match getSSMParameter env parameterPath trace with
    | (.error err, trace') => ⟨field, trace', some err⟩
    | (.ok updatedValue, trace') => ⟨Scalar.str updatedValue, trace', none⟩
  | Kind.Int | Kind.Int8 | Kind.Int16 | Kind.Int32 | Kind.Int64 =>
    match getSSMParameter env parameterPath trace with
    | (.error err, trace') => ⟨field, trace', some err⟩
    | (.ok updatedValue, trace') =>
      match ParseInt updatedValue 0 64 with
      | .error err => ⟨field, trace', some (Error.num err)⟩
      | .ok ssmInt => ⟨SetInt kind ssmInt, trace', none⟩
  | Kind.Float32 | Kind.Float64 =>
    match getSSMParameter env parameterPath trace with
    | (.error err, trace') => ⟨field, trace', some err⟩
    | (.ok updatedValue, trace') =>
      match env.ParseFloat updatedValue with
      | .error err => ⟨field, trace', some (Error.num err)⟩
      | .ok ssmFloat => ⟨SetFloat env kind ssmFloat, trace', none⟩
  | Kind.Bool =>
    match getSSMParameter env parameterPath trace with
    | (.error err, trace') => ⟨field, trace', some err⟩
    | (.ok updatedValue, trace') =>
      match ParseBool updatedValue with
      | .error err => ⟨field, trace', some (Error.num err)⟩
      | .ok ssmBool => ⟨Scalar.bool ssmBool, trace', none⟩
  | _ =>
    ⟨field, trace,
      some (Error.errorf ("Field " ++ fieldName ++ " is of a type that cannot be set"))⟩

/-- The result of `UpdateBySSM`: the struct afterwards, the trace of client
calls, and the returned error (`none` is `nil`). -/
structure Result where
  record : Record
  trace : List Call
  err : Option Error
deriving DecidableEq, Repr

/-- The function `UpdateBySSM` on the struct `generic` points to.  On
`Record.nil` no field is left and the function reaches `return nil`.
Otherwise the body of the loop runs on the first field, and the call on
`rest` is the remaining iterations and the `return nil` after them.  The
error of the recursive call (line 114) and the error of `handleSSMUpdate`
(line 116) are not read by the source. -/
def UpdateBySSM (env : Env) (ssmPath : String) : Record → List Call → Result
  | Record.nil, trace => ⟨Record.nil, trace, none⟩
  | Record.nested name tag inner rest, trace =>
    let sub := UpdateBySSM env ssmPath inner trace
    let r := UpdateBySSM env ssmPath rest sub.trace
    ⟨Record.nested name tag sub.record r.record, r.trace, r.err⟩
  | Record.scalar name tag kind value rest, trace =>
    match tag with
    | some ssm =>
      let out := handleSSMUpdate env kind value name ssmPath ssm trace
      let r := UpdateBySSM env ssmPath rest out.trace
      ⟨Record.scalar name tag kind out.value r.record, r.trace, r.err⟩
    | none =>
      let r := UpdateBySSM env ssmPath rest trace
      ⟨Record.scalar name tag kind value r.record, r.trace, r.err⟩

/-! ## Observing a struct -/

/-- A non-struct field of a struct, at any depth: `depth` counts the structs
around the field, below the struct that was passed to `UpdateBySSM`. -/
structure Leaf where
  depth : Nat
  name : String
  tag : Option String
  kind : Kind
  value : Scalar
deriving DecidableEq, Repr

/-- The non-struct fields of a struct in depth-first declaration order,
which is the order in which `UpdateBySSM` meets them. -/
def Record.leaves : Record → Nat → List Leaf
  | Record.nil, _ => []
  | Record.scalar name tag kind value rest, depth =>
    ⟨depth, name, tag, kind, value⟩ :: rest.leaves depth
  | Record.nested _ _ inner rest, depth =>
    inner.leaves (depth + 1) ++ rest.leaves depth

/-- The kinds with a `case` of their own in the `switch` of
`handleSSMUpdate`. -/
def handledKind : Kind → Bool
  | Kind.String | Kind.Int | Kind.Int8 | Kind.Int16 | Kind.Int32 | Kind.Int64
  | Kind.Float32 | Kind.Float64 | Kind.Bool => true
  | _ => false

/-- The client calls one field gives rise to: a call for `ssmPath ++ ssm`
when the field has the tag `ssm` and a handled kind, and none otherwise. -/
def leafCalls (ssmPath : String) (l : Leaf) : List Call :=
  match l.tag with
  | some ssm => if handledKind l.kind = true then [(ssmPath ++ ssm, true)] else []
  | none => []

/-- The field after the loop body of `UpdateBySSM` has run on it. -/
def leafAfter (env : Env) (ssmPath : String) (l : Leaf) : Leaf :=
  match l.tag with
  | some ssm =>
    { l with value := (handleSSMUpdate env l.kind l.value l.name ssmPath ssm []).value }
  | none => l

/-- The key and decryption flag of the call made for a tagged field. -/
def taggedCall (ssmPath : String) (l : Leaf) : Option Call :=
  l.tag.map (fun ssm => (ssmPath ++ ssm, true))

/-! ## Integer literals, read without a bound -/

/-- The value of the digits `cs` in base `base`, continued from `n`, in
unbounded arithmetic, with the flag "an underscore was met"; `none` when a
character is not a digit of the base. -/
def digitsValue (base : Nat) : List Char → Nat → Bool → Option (Nat × Bool)
  | [], n, underscores => some (n, underscores)
  | c :: cs, n, underscores =>
    match classify true c.toNat with
    | Step.skip => digitsValue base cs n true
    | Step.bad => none
    | Step.digit d =>
      if d < base then digitsValue base cs (n * base + d) underscores else none

/-- The natural number an unsigned integer literal denotes: an optional
prefix `0b`, `0o`, `0x` or `0`, then digits of the base, with underscores as
separators where `underscoreOK` admits them.  `none` when `s` is not such a
literal. -/
def uintLiteralValue (s : String) : Option Nat :=
  if s = "" then none
  else
    match digitsValue (detectBase s.data).1 (detectBase s.data).2 0 false with
    | none => none
    | some (m, underscores) =>
      if underscores = true ∧ underscoreOK s.data = false then none else some m

/-- The integer an integer literal denotes: an optional sign, then an
unsigned integer literal.  `none` when `s` is not such a literal. -/
def literalValue (s : String) : Option Int :=
  if s = "" then none
  else
    let body : String :=
      if s.data.head? = some '+' ∨ s.data.head? = some '-' then ⟨s.data.tail⟩ else s
    match uintLiteralValue body with
    | none => none
    | some m => some (if s.data.head? = some '-' then -(m : Int) else (m : Int))

/-! ## Inputs used in the examples -/

/-- An environment whose client answers every lookup with `answer`, and
whose floating-point parser rejects every string. -/
def constEnv (answer : String) : Env where
  GetParameter := fun _ _ => .ok answer
  ParseFloat := fun s => .error ⟨"ParseFloat", s, ErrKind.ErrSyntax⟩
  toFloat32 := id

/-- An environment whose client knows the parameters of `store` only. -/
def storeEnv (store : List (String × String)) : Env where
  GetParameter := fun name _ =>
    match store.lookup name with
    | some v => .ok v
    | none => .error "ParameterNotFound"
  ParseFloat := fun s => .error ⟨"ParseFloat", s, ErrKind.ErrSyntax⟩
  toFloat32 := id

/-! ## General facts about the program -/

/-- The two results of `getSSMParameter`. -/
theorem getSSMParameter_eq (env : Env) (name : String) (trace : List Call) :
    getSSMParameter env name trace
      = ((env.GetParameter name true).mapError Error.client, trace ++ [(name, true)]) := by
  simp only [getSSMParameter]
  cases env.GetParameter name true <;> rfl

/-- On a kind without a `case` of its own, `handleSSMUpdate` takes the
`default` branch. -/
theorem handleSSMUpdate_unhandled (env : Env) (kind : Kind) (field : Scalar)
    (fieldName ssmPath ssm : String) (trace : List Call)
    (h : handledKind kind = false) :
    handleSSMUpdate env kind field fieldName ssmPath ssm trace
      = ⟨field, trace,
          some (Error.errorf ("Field " ++ fieldName ++ " is of a type that cannot be set"))⟩ := by
  cases kind <;> first | rfl | exact absurd h (by decide)

/-- On a kind with a `case` of its own, `handleSSMUpdate` makes one call. -/
theorem handleSSMUpdate_handled_trace (env : Env) (kind : Kind) (field : Scalar)
    (fieldName ssmPath ssm : String) (trace : List Call)
    (h : handledKind kind = true) :
    (handleSSMUpdate env kind field fieldName ssmPath ssm trace).trace
      = trace ++ [(ssmPath ++ ssm, true)] := by
  cases kind <;> first
    | exact absurd h (by decide)
    | (simp only [handleSSMUpdate, getSSMParameter_eq]
       cases env.GetParameter (ssmPath ++ ssm) true <;> simp only [Except.mapError] <;>
         first | rfl | (split <;> rfl))

/-- The calls `handleSSMUpdate` adds to the trace. -/
theorem handleSSMUpdate_trace (env : Env) (kind : Kind) (field : Scalar)
    (fieldName ssmPath ssm : String) (trace : List Call) (depth : Nat) :
    (handleSSMUpdate env kind field fieldName ssmPath ssm trace).trace
      = trace ++ leafCalls ssmPath ⟨depth, fieldName, some ssm, kind, field⟩ := by
  cases h : handledKind kind
  · rw [handleSSMUpdate_unhandled env kind field fieldName ssmPath ssm trace h]
    simp [leafCalls, h]
  · rw [handleSSMUpdate_handled_trace env kind field fieldName ssmPath ssm trace h]
    simp [leafCalls, h]

/-- The contents `handleSSMUpdate` leaves in the field, and the error it
returns, do not depend on the calls made before. -/
theorem handleSSMUpdate_value (env : Env) (kind : Kind) (field : Scalar)
    (fieldName ssmPath ssm : String) (trace : List Call) :
    (handleSSMUpdate env kind field fieldName ssmPath ssm trace).value
        = (handleSSMUpdate env kind field fieldName ssmPath ssm []).value
      ∧ (handleSSMUpdate env kind field fieldName ssmPath ssm trace).err
        = (handleSSMUpdate env kind field fieldName ssmPath ssm []).err := by
  cases kind <;> first
    | exact ⟨rfl, rfl⟩
    | (simp only [handleSSMUpdate, getSSMParameter_eq]
       cases env.GetParameter (ssmPath ++ ssm) true <;> simp only [Except.mapError] <;>
         first | exact ⟨rfl, rfl⟩ | exact ⟨trivial, trivial⟩ | (split <;> exact ⟨rfl, rfl⟩))

/-- `UpdateBySSM` returns `nil` on every struct. -/
theorem UpdateBySSM_err (env : Env) (ssmPath : String) (r : Record) (trace : List Call) :
    (UpdateBySSM env ssmPath r trace).err = none := by
  induction r generalizing trace with
  | nil => rfl
  | scalar name tag kind value rest ih =>
    cases tag <;> simp only [UpdateBySSM] <;> exact ih _
  | nested name tag inner rest _ ih => simp only [UpdateBySSM]; exact ih _

/-- The calls `UpdateBySSM` makes: those of its fields, in depth-first
declaration order. -/
theorem UpdateBySSM_trace (env : Env) (ssmPath : String) (r : Record) (depth : Nat)
    (trace : List Call) :
    (UpdateBySSM env ssmPath r trace).trace
      = trace ++ (r.leaves depth).flatMap (leafCalls ssmPath) := by
  induction r generalizing trace depth with
  | nil => simp [UpdateBySSM, Record.leaves]
  | scalar name tag kind value rest ih =>
    cases tag with
    | none => simp [UpdateBySSM, Record.leaves, ih depth _, leafCalls]
    | some ssm =>
      simp only [UpdateBySSM, Record.leaves, List.flatMap_cons, ih depth _,
        handleSSMUpdate_trace env kind value name ssmPath ssm trace depth, List.append_assoc]
  | nested name tag inner rest ihi ih =>
    simp only [UpdateBySSM, Record.leaves, List.flatMap_append, ih depth _, ihi (depth + 1) _,
      List.append_assoc]

/-- The fields after `UpdateBySSM`: each one after the loop body has run on
it. -/
theorem UpdateBySSM_leaves (env : Env) (ssmPath : String) (r : Record) (depth : Nat)
    (trace : List Call) :
    (UpdateBySSM env ssmPath r trace).record.leaves depth
      = (r.leaves depth).map (leafAfter env ssmPath) := by
  induction r generalizing trace depth with
  | nil => simp [UpdateBySSM, Record.leaves]
  | scalar name tag kind value rest ih =>
    cases tag with
    | none => simp [UpdateBySSM, Record.leaves, ih depth _, leafAfter]
    | some ssm =>
      simp only [UpdateBySSM, Record.leaves, List.map_cons, ih depth _, leafAfter,
        (handleSSMUpdate_value env kind value name ssmPath ssm trace).1]
  | nested name tag inner rest ihi ih =>
    simp only [UpdateBySSM, Record.leaves, List.map_append, ih depth _, ihi (depth + 1) _]

/-- Where every tagged field resolves without an error, the calls of the
fields are the calls for the tags. -/
theorem flatMap_leafCalls_of_resolved (env : Env) (p : String) (ls : List Leaf)
    (hok : ∀ l ∈ ls, ∀ ssm, l.tag = some ssm →
      (handleSSMUpdate env l.kind l.value l.name p ssm []).err = none) :
    ls.flatMap (leafCalls p) = ls.filterMap (taggedCall p) := by
  induction ls with
  | nil => rfl
  | cons l ls ih =>
    have ih' := ih (fun l' hl' => hok l' (List.mem_cons_of_mem _ hl'))
    have hl := hok l (List.mem_cons_self _ _)
    rw [List.flatMap_cons, ih']
    cases htag : l.tag with
    | none => simp [leafCalls, taggedCall, htag]
    | some ssm =>
      have hh : handledKind l.kind = true := by
        cases hk : handledKind l.kind
        · have := hl ssm htag
          rw [handleSSMUpdate_unhandled env l.kind l.value l.name p ssm [] hk] at this
          exact absurd this (by simp)
        · rfl
      simp [leafCalls, taggedCall, htag, hh]

/-! ## `strconv.ParseInt` against the unbounded reading -/

/-- Reading further digits does not lower the value. -/
theorem digitsValue_ge (base : Nat) (hb : 1 ≤ base) (cs : List Char) :
    ∀ (n : Nat) (u : Bool) (m : Nat) (u' : Bool),
      digitsValue base cs n u = some (m, u') → n ≤ m := by
  induction cs with
  | nil =>
    intro n u m u' h
    simp only [digitsValue, Option.some.injEq, Prod.mk.injEq] at h
    omega
  | cons c cs ih =>
    intro n u m u' h
    simp only [digitsValue] at h
    split at h
    · exact ih n true m u' h
    · exact absurd h (by simp)
    · split at h
      · have := ih _ _ _ _ h
        have : n ≤ n * base := Nat.le_mul_of_pos_right n hb
        omega
      · exact absurd h (by simp)

/-- The `cutoff` of `ParseUint` is the least `n` with `n * base > maxUint64`. -/
theorem cutoff_spec (base n : Nat) (hb : 1 ≤ base) :
    n ≥ maxUint64 / base + 1 ↔ maxUint64 < n * base := by
  constructor
  · intro h
    have h1 : maxUint64 < (maxUint64 / base + 1) * base := by
      have := Nat.div_add_mod maxUint64 base
      have := Nat.mod_lt maxUint64 hb
      nlinarith
    calc maxUint64 < (maxUint64 / base + 1) * base := h1
      _ ≤ n * base := Nat.mul_le_mul_right base h
  · intro h
    by_contra hlt
    have hle : n ≤ maxUint64 / base := by omega
    have : n * base ≤ maxUint64 / base * base := Nat.mul_le_mul_right base hle
    have := Nat.div_mul_le_self maxUint64 base
    omega

/-- The digit loop of `ParseUint` against the unbounded reading: on digits
that denote `m`, the loop ends with `m` when `m` fits 64 bits and returns
the range error when it does not. -/
theorem digitLoop_spec (base : Nat) (hb : 2 ≤ base) (hb' : base ≤ 36) (cs : List Char) :
    ∀ (n : Nat) (u : Bool) (m : Nat) (u' : Bool), n ≤ maxUint64 →
      digitsValue base cs n u = some (m, u') →
      digitLoop base true (maxUint64 / base + 1) maxUint64 cs n u
        = if m ≤ maxUint64 then .ok (m, u') else .error ErrKind.ErrRange := by
  induction cs with
  | nil =>
    intro n u m u' hn h
    simp only [digitsValue, Option.some.injEq, Prod.mk.injEq] at h
    obtain ⟨rfl, rfl⟩ := h
    simp [digitLoop, hn]
  | cons c cs ih =>
    intro n u m u' hn h
    simp only [digitsValue] at h
    simp only [digitLoop]
    split at h
    · exact ih n true m u' hn h
    · exact absurd h (by simp)
    · rename_i d hc
      split at h
      · rename_i hd
        have hge := digitsValue_ge base (by omega) cs _ _ _ _ h
        rw [if_neg (by omega)]
        by_cases hcut : n ≥ maxUint64 / base + 1
        · rw [if_pos hcut]
          have := (cutoff_spec base n (by omega)).1 hcut
          rw [if_neg (by omega)]
        · rw [if_neg hcut]
          have hnb : n * base ≤ maxUint64 := by
            by_contra hgt
            exact hcut ((cutoff_spec base n (by omega)).2 (by omega))
          have hmax : maxUint64 = 2 ^ 64 - 1 := rfl
          have hmod : n * base % 2 ^ 64 = n * base := Nat.mod_eq_of_lt (by omega)
          simp only [hmod]
          by_cases hsum : n * base + d < 2 ^ 64
          · have hmod2 : (n * base + d) % 2 ^ 64 = n * base + d := Nat.mod_eq_of_lt hsum
            simp only [hmod2]
            rw [if_neg (by omega)]
            exact ih _ _ _ _ (by omega) h
          · have hmod2 : (n * base + d) % 2 ^ 64 = n * base + d - 2 ^ 64 := by
              rw [Nat.mod_eq_sub_mod (by omega)]
              exact Nat.mod_eq_of_lt (by omega)
            simp only [hmod2]
            rw [if_pos (Or.inl (by omega)), if_neg (by omega)]
      · exact absurd h (by simp)

/-- The base detection yields one of the bases 2, 8, 10, 16. -/
theorem detectBase_base (s : List Char) :
    2 ≤ (detectBase s).1 ∧ (detectBase s).1 ≤ 36 := by
  unfold detectBase
  split
  · split
    · split
      · split
        · simp
        · split
          · simp
          · split <;> simp
      · simp
    · simp
  · simp

/-- `ParseUint` in base 0 at 64 bits against the unbounded reading. -/
theorem ParseUint_spec (s : String) (m : Nat) (h : uintLiteralValue s = some m) :
    ParseUint s 0 64
      = if m ≤ maxUint64 then (m, none)
        else (maxUint64, some ⟨"ParseUint", s, ErrKind.ErrRange⟩) := by
  unfold uintLiteralValue at h
  split at h
  · exact absurd h (by simp)
  · rename_i hs
    split at h
    · exact absurd h (by simp)
    · rename_i m' u hdv
      split at h
      · exact absurd h (by simp)
      · rename_i hu
        simp only [Option.some.injEq] at h
        subst h
        obtain ⟨hb, hb'⟩ := detectBase_base s.data
        have hloop := digitLoop_spec _ hb hb' _ 0 false m' u (Nat.zero_le _) hdv
        have hmax : (2 : Nat) ^ 64 - 1 = maxUint64 := rfl
        simp only [ParseUint, if_neg hs, decide_True, true_or, not_true_eq_false, if_false,
          if_true, OfNat.ofNat_ne_zero, gt_iff_lt, lt_self_iff_false, hmax, hloop]
        by_cases hm : m' ≤ maxUint64
        · simp only [if_pos hm]
          rw [if_neg hu]
        · simp only [if_neg hm]

/-- The conversion to `int64` leaves a 64-bit integer as it is. -/
theorem wrapSigned_of_range (x : Int) (h1 : -2 ^ 63 ≤ x) (h2 : x ≤ 2 ^ 63 - 1) :
    wrapSigned 64 x = x := by
  unfold wrapSigned
  have : (x + 2 ^ (64 - 1)) % 2 ^ 64 = x + 2 ^ (64 - 1) := by
    apply Int.emod_eq_of_lt <;> norm_num <;> omega
  rw [this]
  omega

/-- `ParseInt` in base 0 at 64 bits against the unbounded reading: a literal
that denotes `v` parses to `v` when `v` fits 64 bits, and gives the range
error when it does not. -/
theorem ParseInt_spec (s : String) (v : Int) (h : literalValue s = some v) :
    ParseInt s 0 64
      = if -2 ^ 63 ≤ v ∧ v ≤ 2 ^ 63 - 1 then .ok v
        else .error ⟨"ParseInt", s, ErrKind.ErrRange⟩ := by
  unfold literalValue at h
  split at h
  · exact absurd h (by simp)
  · rename_i hs
    simp only at h
    split at h
    · exact absurd h (by simp)
    · rename_i m hm
      simp only [Option.some.injEq] at h
      have hpu := ParseUint_spec _ m hm
      have hmax : maxUint64 = 2 ^ 64 - 1 := rfl
      simp only [ParseInt, if_neg hs, hpu]
      by_cases hfit : m ≤ maxUint64
      · simp only [if_pos hfit, OfNat.ofNat_ne_zero, if_false, Nat.add_one_sub_one,
          decide_eq_false_iff_not, decide_eq_true_eq]
        by_cases hneg : s.data.head? = some '-'
        · rw [if_pos hneg] at h
          simp only [hneg, not_true_eq_false, false_and, if_false, true_and, if_true]
          by_cases hcut : m > 2 ^ 63
          · rw [if_pos hcut, if_neg (by omega)]
          · rw [if_neg hcut, if_pos (by omega)]
            refine congrArg Except.ok ?_
            by_cases h63 : m = 2 ^ 63
            · subst h63; subst h; decide
            · rw [wrapSigned_of_range (m : Int) (by omega) (by omega),
                wrapSigned_of_range (-(m : Int)) (by omega) (by omega)]
              exact h
        · rw [if_neg hneg] at h
          simp only [hneg, not_false_eq_true, true_and, false_and, if_false]
          by_cases hcut : m ≥ 2 ^ 63
          · rw [if_pos hcut, if_neg (by omega)]
          · rw [if_neg hcut, if_pos (by omega)]
            refine congrArg Except.ok ?_
            rw [wrapSigned_of_range (m : Int) (by omega) (by omega)]
            exact h
      · simp only [if_neg hfit, ne_eq, not_true_eq_false, if_false, OfNat.ofNat_ne_zero,
          Nat.add_one_sub_one, decide_eq_false_iff_not, decide_eq_true_eq]
        by_cases hneg : s.data.head? = some '-'
        · rw [if_pos hneg] at h
          simp only [hneg, not_true_eq_false, false_and, if_false, true_and]
          rw [if_pos (by rw [hmax]; norm_num), if_neg (by omega)]
        · rw [if_neg hneg] at h
          simp only [hneg, not_false_eq_true, true_and]
          rw [if_pos (by rw [hmax]; norm_num), if_neg (by omega)]

/-! ## The claims -/

/-- C1 (the code departs from the claim): on a struct whose one field is a
boolean with the tag `Enabled`, with the client answering `"yes"`, the
resolution of the field fails with a parse error, yet `UpdateBySSM` returns
`nil` and the field still holds `false`. -/
theorem C1_parse_failure_returns_nil :
    (handleSSMUpdate (constEnv "yes") Kind.Bool (Scalar.bool false) "Enabled"
        "/Env/Application/" "Enabled" []).err
      = some (Error.num ⟨"ParseBool", "yes", ErrKind.ErrSyntax⟩)
    ∧ UpdateBySSM (constEnv "yes") "/Env/Application/"
        (Record.scalar "Enabled" (some "Enabled") Kind.Bool (Scalar.bool false) Record.nil) []
      = ⟨Record.scalar "Enabled" (some "Enabled") Kind.Bool (Scalar.bool false) Record.nil,
          [("/Env/Application/Enabled", true)], none⟩ := by
  decide

/-- C2 (the code departs from the claim): on a struct with the string fields
`A` and `B`, tagged `a` and `b`, with a client that fails on `/p/a` and
answers `"new"` on `/p/b`, `UpdateBySSM` returns `nil`, calls the client for
`/p/b` after the failed call for `/p/a`, and overwrites `B`. -/
theorem C2_continues_after_fetch_error :
    (handleSSMUpdate (storeEnv [("/p/b", "new")]) Kind.String (Scalar.str "oldA") "A"
        "/p/" "a" []).err
      = some (Error.client "ParameterNotFound")
    ∧ UpdateBySSM (storeEnv [("/p/b", "new")]) "/p/"
        (Record.scalar "A" (some "a") Kind.String (Scalar.str "oldA")
          (Record.scalar "B" (some "b") Kind.String (Scalar.str "oldB") Record.nil)) []
      = ⟨Record.scalar "A" (some "a") Kind.String (Scalar.str "oldA")
          (Record.scalar "B" (some "b") Kind.String (Scalar.str "new") Record.nil),
          [("/p/a", true), ("/p/b", true)], none⟩ := by
  decide

/-- C3: on a struct whose one non-struct field (at whatever depth) is of a
signed-integer kind and has the tag `f`, when the client answers `"42"` for
the key `p ++ f`, `UpdateBySSM` leaves 42 in the field, makes that one call,
and returns `nil`. -/
theorem C3_single_int_field (env : Env) (p : String) (r : Record) (trace : List Call)
    (d : Nat) (name f : String) (kind : Kind) (v : Scalar)
    (hr : r.leaves 0 = [⟨d, name, some f, kind, v⟩])
    (hk : kind ∈ [Kind.Int, Kind.Int8, Kind.Int16, Kind.Int32, Kind.Int64])
    (hf : env.GetParameter (p ++ f) true = .ok "42") :
    (UpdateBySSM env p r trace).record.leaves 0 = [⟨d, name, some f, kind, Scalar.int 42⟩]
    ∧ (UpdateBySSM env p r trace).trace = trace ++ [(p ++ f, true)]
    ∧ (UpdateBySSM env p r trace).err = none := by
  have h42 : ParseInt "42" 0 64 = .ok 42 := by decide
  simp only [List.mem_cons, List.mem_singleton, List.not_mem_nil, or_false] at hk
  refine ⟨?_, ?_, UpdateBySSM_err env p r trace⟩
  · rw [UpdateBySSM_leaves, hr]
    rcases hk with rfl | rfl | rfl | rfl | rfl <;>
      simp only [List.map_cons, List.map_nil, leafAfter, handleSSMUpdate, getSSMParameter_eq,
        hf, Except.mapError, h42] <;>
      rfl
  · rw [UpdateBySSM_trace env p r 0 trace, hr]
    rcases hk with rfl | rfl | rfl | rfl | rfl <;> rfl

/-- C3 at the struct `{FavoriteNumber int}` of the source, wrapped in a
struct of its own. -/
theorem C3_single_int_field_witness :
    (UpdateBySSM (constEnv "42") "/Env/Application/"
        (Record.nested "Person" none
          (Record.scalar "FavoriteNumber" (some "FavoriteNumber") Kind.Int (Scalar.int 0)
            Record.nil)
          Record.nil) []).record
      = Record.nested "Person" none
          (Record.scalar "FavoriteNumber" (some "FavoriteNumber") Kind.Int (Scalar.int 42)
            Record.nil)
          Record.nil
    ∧ (UpdateBySSM (constEnv "42") "/Env/Application/"
        (Record.nested "Person" none
          (Record.scalar "FavoriteNumber" (some "FavoriteNumber") Kind.Int (Scalar.int 0)
            Record.nil)
          Record.nil) []).trace
      = [] ++ [("/Env/Application/" ++ "FavoriteNumber", true)] :=
  ⟨by decide,
    (C3_single_int_field (constEnv "42") "/Env/Application/"
      (Record.nested "Person" none
        (Record.scalar "FavoriteNumber" (some "FavoriteNumber") Kind.Int (Scalar.int 0)
          Record.nil)
        Record.nil) [] 1 "FavoriteNumber" "FavoriteNumber" Kind.Int (Scalar.int 0)
      (by decide) (by decide) rfl).2.1⟩

/-- C4 as stated fails: `"300"` is an integer literal whose value lies
outside the range of an 8-bit field, and `handleSSMUpdate` on a field of
kind `Int8` returns `nil` and leaves 44 in the field. -/
theorem C4_int8_is_truncated :
    literalValue "300" = some 300
    ∧ (2 : Int) ^ (8 - 1) - 1 < 300
    ∧ handleSSMUpdate (constEnv "300") Kind.Int8 (Scalar.int 0) "Small" "/p/" "small" []
        = ⟨Scalar.int 44, [("/p/small", true)], none⟩ := by
  decide

/-- C4, amended: on a field of any signed-integer kind, when the client
answers an integer literal whose value lies outside the 64-bit range
`[-2^63, 2^63 - 1]`, `handleSSMUpdate` returns the range error of `ParseInt`
and leaves the field as it was; and `"-17"` into a field of kind `Int64`
yields -17. -/
theorem C4_out_of_int64_range :
    (∀ (env : Env) (kind : Kind) (field : Scalar) (fieldName ssmPath ssm s : String)
        (trace : List Call) (v : Int),
        kind ∈ [Kind.Int, Kind.Int8, Kind.Int16, Kind.Int32, Kind.Int64] →
        env.GetParameter (ssmPath ++ ssm) true = .ok s →
        literalValue s = some v →
        (v < -2 ^ 63 ∨ 2 ^ 63 - 1 < v) →
        handleSSMUpdate env kind field fieldName ssmPath ssm trace
          = ⟨field, trace ++ [(ssmPath ++ ssm, true)],
              some (Error.num ⟨"ParseInt", s, ErrKind.ErrRange⟩)⟩)
    ∧ (∀ (env : Env) (field : Scalar) (fieldName ssmPath ssm : String) (trace : List Call),
        env.GetParameter (ssmPath ++ ssm) true = .ok "-17" →
        handleSSMUpdate env Kind.Int64 field fieldName ssmPath ssm trace
          = ⟨Scalar.int (-17), trace ++ [(ssmPath ++ ssm, true)], none⟩) := by
  constructor
  · intro env kind field fieldName ssmPath ssm s trace v hk hf hv hout
    have hp : ParseInt s 0 64 = .error ⟨"ParseInt", s, ErrKind.ErrRange⟩ := by
      rw [ParseInt_spec s v hv, if_neg (by omega)]
    simp only [List.mem_cons, List.mem_singleton, List.not_mem_nil, or_false] at hk
    rcases hk with rfl | rfl | rfl | rfl | rfl <;>
      simp only [handleSSMUpdate, getSSMParameter_eq, hf, Except.mapError, hp]
  · intro env field fieldName ssmPath ssm trace hf
    have hp : ParseInt "-17" 0 64 = .ok (-17) := by decide
    simp only [handleSSMUpdate, getSSMParameter_eq, hf, Except.mapError, hp]
    rfl

/-- C4, amended, at `"9999999999999999999"` into a field of kind `Int64`. -/
theorem C4_out_of_int64_range_witness :
    literalValue "9999999999999999999" = some 9999999999999999999
    ∧ handleSSMUpdate (constEnv "9999999999999999999") Kind.Int64 (Scalar.int 5) "Big" "/p/"
        "big" []
      = ⟨Scalar.int 5, [] ++ [("/p/" ++ "big", true)],
          some (Error.num ⟨"ParseInt", "9999999999999999999", ErrKind.ErrRange⟩)⟩ :=
  ⟨by decide,
    C4_out_of_int64_range.1 (constEnv "9999999999999999999") Kind.Int64 (Scalar.int 5) "Big"
      "/p/" "big" "9999999999999999999" [] 9999999999999999999 (by decide) rfl (by decide)
      (by decide)⟩

/-- C5: a string field with the tag `f` that sits at any depth `d` of the
struct, as the `i`-th field in depth-first order, holds `s` after
`UpdateBySSM` when the client answers `s` for the key `p ++ f`; and between
the calls made for the fields before it and those made for the fields after
it, `UpdateBySSM` makes for it the one call for `p ++ f`. -/
theorem C5_nested_string_field (env : Env) (p : String) (r : Record) (trace : List Call)
    (i d : Nat) (name f s : String) (v : Scalar)
    (hi : (r.leaves 0)[i]? = some ⟨d, name, some f, Kind.String, v⟩)
    (hf : env.GetParameter (p ++ f) true = .ok s) :
    ((UpdateBySSM env p r trace).record.leaves 0)[i]?
        = some ⟨d, name, some f, Kind.String, Scalar.str s⟩
    ∧ (UpdateBySSM env p r trace).trace
        = trace ++ ((r.leaves 0).take i).flatMap (leafCalls p) ++ [(p ++ f, true)]
            ++ ((r.leaves 0).drop (i + 1)).flatMap (leafCalls p) := by
  constructor
  · rw [UpdateBySSM_leaves, List.getElem?_map, hi]
    simp only [Option.map_some', leafAfter, handleSSMUpdate, getSSMParameter_eq, hf,
      Except.mapError]
  · rw [UpdateBySSM_trace env p r 0 trace]
    have hlt : i < (r.leaves 0).length := by
      by_contra hge
      rw [List.getElem?_eq_none (by omega)] at hi
      exact absurd hi (by simp)
    have hget : (r.leaves 0)[i] = ⟨d, name, some f, Kind.String, v⟩ := by
      rw [List.getElem?_eq_getElem hlt] at hi
      exact Option.some.inj hi
    conv_lhs => rw [← List.take_append_drop i (r.leaves 0)]
    rw [List.drop_eq_getElem_cons hlt, hget, List.flatMap_append, List.flatMap_cons]
    simp [leafCalls, handledKind, List.append_assoc]

/-- C5 at the field `FirstName` of the source, two structs deep. -/
theorem C5_nested_string_field_witness :
    ((Record.nested "Person" none
          (Record.nested "Name" none
            (Record.scalar "FirstName" (some "Name/FirstName") Kind.String (Scalar.str "")
              Record.nil)
            Record.nil)
          Record.nil).leaves 0)[0]?
        = some ⟨2, "FirstName", some "Name/FirstName", Kind.String, Scalar.str ""⟩
    ∧ ((UpdateBySSM (storeEnv [("/Env/Application/Name/FirstName", "Ada")])
          "/Env/Application/"
          (Record.nested "Person" none
            (Record.nested "Name" none
              (Record.scalar "FirstName" (some "Name/FirstName") Kind.String (Scalar.str "")
                Record.nil)
              Record.nil)
            Record.nil) []).record.leaves 0)[0]?
        = some ⟨2, "FirstName", some "Name/FirstName", Kind.String, Scalar.str "Ada"⟩ :=
  ⟨by decide,
    (C5_nested_string_field (storeEnv [("/Env/Application/Name/FirstName", "Ada")])
      "/Env/Application/"
      (Record.nested "Person" none
        (Record.nested "Name" none
          (Record.scalar "FirstName" (some "Name/FirstName") Kind.String (Scalar.str "")
            Record.nil)
          Record.nil)
        Record.nil) [] 0 2 "FirstName" "Name/FirstName" "Ada" (Scalar.str "")
      (by decide) (by decide)).1⟩

/-- C6: on a field of a kind other than string, the signed integers, the
floating-point kinds and boolean, `handleSSMUpdate` returns the error
`Field <name> is of a type that cannot be set`, makes no client call, and
leaves the field as it was. -/
theorem C6_unsupported_kind (env : Env) (kind : Kind) (field : Scalar)
    (fieldName ssmPath ssm : String) (trace : List Call)
    (hk : kind ∉ [Kind.String, Kind.Int, Kind.Int8, Kind.Int16, Kind.Int32, Kind.Int64,
      Kind.Float32, Kind.Float64, Kind.Bool]) :
    handleSSMUpdate env kind field fieldName ssmPath ssm trace
      = ⟨field, trace,
          some (Error.errorf ("Field " ++ fieldName ++ " is of a type that cannot be set"))⟩ := by
  apply handleSSMUpdate_unhandled
  cases kind <;> first | rfl | exact absurd hk (by decide)

/-- C6 at a field of kind `Slice`. -/
theorem C6_unsupported_kind_witness :
    handleSSMUpdate (constEnv "1") Kind.Slice (Scalar.other 7) "Tags" "/p/" "tags"
        [("/p/earlier", true)]
      = ⟨Scalar.other 7, [("/p/earlier", true)],
          some (Error.errorf ("Field " ++ "Tags" ++ " is of a type that cannot be set"))⟩ :=
  C6_unsupported_kind (constEnv "1") Kind.Slice (Scalar.other 7) "Tags" "/p/" "tags"
    [("/p/earlier", true)] (by decide)

/-- C7: whenever `handleSSMUpdate` returns an error, the field holds what it
held before the call. -/
theorem C7_error_leaves_field (env : Env) (kind : Kind) (field : Scalar)
    (fieldName ssmPath ssm : String) (trace : List Call)
    (herr : (handleSSMUpdate env kind field fieldName ssmPath ssm trace).err ≠ none) :
    (handleSSMUpdate env kind field fieldName ssmPath ssm trace).value = field := by
  revert herr
  cases kind <;> first
    | (intro _; rfl)
    | (simp only [handleSSMUpdate, getSSMParameter_eq]
       cases env.GetParameter (ssmPath ++ ssm) true <;> simp only [Except.mapError] <;>
         first
         | (intro _; trivial)
         | (split <;> intro _ <;> trivial))

/-- C7 at a field of kind `Float64` with the client answering `"abc"`. -/
theorem C7_error_leaves_field_witness :
    (handleSSMUpdate (constEnv "abc") Kind.Float64 (Scalar.float 0) "Ratio" "/p/" "ratio"
        []).err ≠ none
    ∧ (handleSSMUpdate (constEnv "abc") Kind.Float64 (Scalar.float 0) "Ratio" "/p/" "ratio"
        []).value = Scalar.float 0 :=
  ⟨by decide,
    C7_error_leaves_field (constEnv "abc") Kind.Float64 (Scalar.float 0) "Ratio" "/p/" "ratio"
      [] (by decide)⟩

/-- C8: on a boolean field, when the client answers `s` for the key:
`handleSSMUpdate` sets the field to `true` and returns `nil` if `s` is one of
`1 t T TRUE true True`; sets it to `false` and returns `nil` if `s` is one of
`0 f F FALSE false False`; and returns the syntax error of `ParseBool` for
every other `s`. -/
theorem C8_bool_literals (env : Env) (field : Scalar) (fieldName ssmPath ssm s : String)
    (trace : List Call) (hf : env.GetParameter (ssmPath ++ ssm) true = .ok s) :
    (s ∈ ["1", "t", "T", "TRUE", "true", "True"] →
        handleSSMUpdate env Kind.Bool field fieldName ssmPath ssm trace
          = ⟨Scalar.bool true, trace ++ [(ssmPath ++ ssm, true)], none⟩)
    ∧ (s ∈ ["0", "f", "F", "FALSE", "false", "False"] →
        handleSSMUpdate env Kind.Bool field fieldName ssmPath ssm trace
          = ⟨Scalar.bool false, trace ++ [(ssmPath ++ ssm, true)], none⟩)
    ∧ (s ∉ ["1", "t", "T", "TRUE", "true", "True", "0", "f", "F", "FALSE", "false", "False"] →
        handleSSMUpdate env Kind.Bool field fieldName ssmPath ssm trace
          = ⟨field, trace ++ [(ssmPath ++ ssm, true)],
              some (Error.num ⟨"ParseBool", s, ErrKind.ErrSyntax⟩)⟩) := by
  simp only [handleSSMUpdate, getSSMParameter_eq, hf, Except.mapError]
  refine ⟨?_, ?_, ?_⟩
  · intro hs
    simp only [List.mem_cons, List.mem_singleton, List.not_mem_nil, or_false] at hs
    rcases hs with rfl | rfl | rfl | rfl | rfl | rfl <;> rfl
  · intro hs
    simp only [List.mem_cons, List.mem_singleton, List.not_mem_nil, or_false] at hs
    rcases hs with rfl | rfl | rfl | rfl | rfl | rfl <;> rfl
  · intro hs
    simp only [List.mem_cons, List.mem_singleton, List.not_mem_nil, or_false, not_or] at hs
    obtain ⟨h1, h2, h3, h4, h5, h6, h7, h8, h9, h10, h11, h12⟩ := hs
    simp [ParseBool, h1, h2, h3, h4, h5, h6, h7, h8, h9, h10, h11, h12]

/-- C8 at the client answer `"yes"`. -/
theorem C8_bool_literals_witness :
    (("yes" : String) ∉ ["1", "t", "T", "TRUE", "true", "True", "0", "f", "F", "FALSE",
        "false", "False"]) ∧
      handleSSMUpdate (constEnv "yes") Kind.Bool (Scalar.bool false) "Enabled" "/p/" "enabled" []
        = ⟨Scalar.bool false, [] ++ [("/p/" ++ "enabled", true)],
            some (Error.num ⟨"ParseBool", "yes", ErrKind.ErrSyntax⟩)⟩ :=
  ⟨by decide,
    (C8_bool_literals (constEnv "yes") (Scalar.bool false) "Enabled" "/p/" "enabled" "yes" []
      rfl).2.2 (by decide)⟩

/-- C9: when the resolution of every tagged non-struct field succeeds, the
calls `UpdateBySSM` makes to the client are, in depth-first declaration
order, one call `(p ++ tag, true)` for each tagged non-struct field, and no
other call. -/
theorem C9_calls_in_order (env : Env) (p : String) (r : Record) (trace : List Call)
    (hok : ∀ l ∈ r.leaves 0, ∀ ssm, l.tag = some ssm →
      (handleSSMUpdate env l.kind l.value l.name p ssm []).err = none) :
    (UpdateBySSM env p r trace).trace
      = trace ++ (r.leaves 0).filterMap (taggedCall p) := by
  rw [UpdateBySSM_trace env p r 0 trace, flatMap_leafCalls_of_resolved env p _ hok]

/-- C9 at a struct with two string fields of the same tag around a nested
struct: three calls, two of them for the same key. -/
theorem C9_calls_in_order_witness :
    (UpdateBySSM (constEnv "v") "/p/"
        (Record.scalar "A" (some "k") Kind.String (Scalar.str "")
          (Record.nested "N" none
            (Record.scalar "B" (some "n") Kind.String (Scalar.str "") Record.nil)
            (Record.scalar "C" (some "k") Kind.String (Scalar.str "") Record.nil))) []).trace
      = [("/p/k", true), ("/p/n", true), ("/p/k", true)] :=
  C9_calls_in_order (constEnv "v") "/p/"
    (Record.scalar "A" (some "k") Kind.String (Scalar.str "")
      (Record.nested "N" none
        (Record.scalar "B" (some "n") Kind.String (Scalar.str "") Record.nil)
        (Record.scalar "C" (some "k") Kind.String (Scalar.str "") Record.nil))) []
    (by decide)

/-- C10: a non-struct field without the tag, at any depth, the `i`-th field
in depth-first order, holds after `UpdateBySSM` what it held before, and the
calls `UpdateBySSM` makes are those of the other fields. -/
theorem C10_untagged_field_unchanged (env : Env) (p : String) (r : Record)
    (trace : List Call) (i : Nat) (l : Leaf)
    (hi : (r.leaves 0)[i]? = some l) (htag : l.tag = none) :
    ((UpdateBySSM env p r trace).record.leaves 0)[i]? = some l
    ∧ (UpdateBySSM env p r trace).trace
        = trace ++ ((r.leaves 0).eraseIdx i).flatMap (leafCalls p) := by
  constructor
  · rw [UpdateBySSM_leaves, List.getElem?_map, hi]
    simp [leafAfter, htag]
  · rw [UpdateBySSM_trace env p r 0 trace]
    have hlt : i < (r.leaves 0).length := by
      by_contra hge
      rw [List.getElem?_eq_none (by omega)] at hi
      exact absurd hi (by simp)
    have hget : (r.leaves 0)[i] = l := by
      rw [List.getElem?_eq_getElem hlt] at hi
      exact Option.some.inj hi
    rw [List.eraseIdx_eq_take_drop_succ, List.flatMap_append]
    conv_lhs => rw [← List.take_append_drop i (r.leaves 0)]
    rw [List.drop_eq_getElem_cons hlt, hget, List.flatMap_append, List.flatMap_cons]
    simp [leafCalls, htag]

/-- C10 at a struct whose untagged field of kind `Slice` sits in a nested
struct between two tagged fields. -/
theorem C10_untagged_field_unchanged_witness :
    ((UpdateBySSM (constEnv "v") "/p/"
        (Record.scalar "A" (some "a") Kind.String (Scalar.str "")
          (Record.nested "N" none
            (Record.scalar "Tags" none Kind.Slice (Scalar.other 3) Record.nil)
            (Record.scalar "C" (some "c") Kind.Bool (Scalar.bool true) Record.nil)))
        []).record.leaves 0)[1]?
      = some ⟨1, "Tags", none, Kind.Slice, Scalar.other 3⟩ :=
  (C10_untagged_field_unchanged (constEnv "v") "/p/"
    (Record.scalar "A" (some "a") Kind.String (Scalar.str "")
      (Record.nested "N" none
        (Record.scalar "Tags" none Kind.Slice (Scalar.other 3) Record.nil)
        (Record.scalar "C" (some "c") Kind.Bool (Scalar.bool true) Record.nil)))
    [] 1 ⟨1, "Tags", none, Kind.Slice, Scalar.other 3⟩ (by decide) rfl).1

end SSMReflection
